import Mathlib

/-!
Verification of the FabEdge tunnel control plane and packet-filter rule
builder.  Definitions embed the Go sources: the `iptables` helper
(`IPTablesHelper` and its operations), the connector controller
(`addNode`, `removeNode`, `onNodeRequest`, `rebuildConnectorEndpoint`,
`updateConfigMapIfNeeded`, `getPeers`), and the agent argument map.
Parts of the repository that are not present in the excerpted sources
(the endpoint store, the netconf record types, the agent argument map
implementation) are modelled from the specification; their doc comments
say so explicitly.
-/

/- ===================================================================
   Part 0: byte-wise string ordering, as used by Go's `sort.Strings`
   and by the `stringset` package whose `Values` method returns the
   members of a string set in ascending order.
   =================================================================== -/

/-- Byte-wise (codepoint-wise) strict comparison of character lists.
For valid UTF-8, comparing codepoints agrees with Go's byte-wise
string comparison. -/
def charListLt : List Char → List Char → Bool
  | [], [] => false
  | [], _ :: _ => true
  | _ :: _, [] => false
  | a :: as, b :: bs =>
    if a.toNat < b.toNat then true
    else if b.toNat < a.toNat then false
    else charListLt as bs

/-- `a` is at most `b` in Go's byte-wise string order. -/
def goStrLe (a b : String) : Prop := charListLt b.data a.data = false

instance : DecidableRel goStrLe := fun a b =>
  inferInstanceAs (Decidable (charListLt b.data a.data = false))

lemma charListLt_asymm : ∀ x y : List Char,
    charListLt x y = true → charListLt y x = false
  | [], [], h => by simp [charListLt] at h
  | [], _ :: _, _ => by simp [charListLt]
  | _ :: _, [], h => by simp [charListLt] at h
  | a :: as, b :: bs, h => by
    simp only [charListLt] at h ⊢
    rcases Nat.lt_trichotomy a.toNat b.toNat with hlt | heq | hgt
    · rw [if_neg (by omega), if_pos hlt]
    · rw [if_neg (by omega), if_neg (by omega)]
      rw [if_neg (by omega), if_neg (by omega)] at h
      exact charListLt_asymm as bs h
    · rw [if_neg (by omega), if_pos hgt] at h
      simp at h

lemma charListLt_ge_trans : ∀ x y z : List Char,
    charListLt x y = false → charListLt y z = false → charListLt x z = false
  | [], [], [], _, _ => by simp [charListLt]
  | [], [], _ :: _, _, h2 => by simp [charListLt] at h2
  | [], _ :: _, _, h1, _ => by simp [charListLt] at h1
  | _ :: _, _, [], _, _ => by simp [charListLt]
  | _ :: _, [], _ :: _, _, h2 => by simp [charListLt] at h2
  | a :: as, b :: bs, c :: cs, h1, h2 => by
    simp only [charListLt] at h1 h2 ⊢
    rcases Nat.lt_trichotomy a.toNat b.toNat with hab | hab | hab
    · rw [if_pos hab] at h1; simp at h1
    · rw [if_neg (by omega), if_neg (by omega)] at h1
      rcases Nat.lt_trichotomy b.toNat c.toNat with hbc | hbc | hbc
      · rw [if_pos hbc] at h2; simp at h2
      · rw [if_neg (by omega), if_neg (by omega)] at h2
        rw [if_neg (by omega), if_neg (by omega)]
        exact charListLt_ge_trans as bs cs h1 h2
      · rw [if_neg (by omega), if_pos (by omega)]
    · rcases Nat.lt_trichotomy b.toNat c.toNat with hbc | hbc | hbc
      · rw [if_pos hbc] at h2; simp at h2
      · rw [if_neg (by omega), if_pos (by omega)]
      · rw [if_neg (by omega), if_pos (by omega)]

instance : IsTotal String goStrLe where
  total a b := by
    by_cases h : charListLt b.data a.data = false
    · exact Or.inl h
    · exact Or.inr (charListLt_asymm b.data a.data
        (by revert h; cases charListLt b.data a.data <;> simp))

instance : IsTrans String goStrLe where
  trans a b c h1 h2 := charListLt_ge_trans c.data b.data a.data h2 h1

/-- Sorted ascending list of the members of a string collection, as
`stringset.Set.Values` returns them. -/
def sortStrings (l : List String) : List String := l.insertionSort goStrLe

/- ===================================================================
   Part 1: the iptables rule builder (package iptables).
   =================================================================== -/

/-- One iptables rule: the chain it is appended to plus its argument
vector, embedding Go's `IPTablesRule`. -/
structure IPTablesRule where
  chain : String
  rule : List String
deriving DecidableEq, Repr

/-- One table of the accumulated ruleset, embedding Go's
`IPTablesRuleSet`: the table name, registered chains, appended rules. -/
structure IPTablesRuleSet where
  table : String
  chains : List String
  rules : List IPTablesRule
deriving DecidableEq, Repr

/-- The rule-builder accumulator, embedding Go's `IPTablesHelper`
(the protocol field is omitted; it only selects `restoreCommand`). -/
structure IPTablesHelper where
  restoreCommand : String
  ruleSets : List IPTablesRuleSet
deriving DecidableEq, Repr

/-- Embeds Go `isInternalChain`: the chain is one of the built-in chains
of the four tables.  The Go function is a cascade of `if` blocks, each
returning `true` on a match, with a final `return false`. -/
def isInternalChain (table chain : String) : Bool :=
  (table == "filter" && (chain == "INPUT" || chain == "OUTPUT" || chain == "FORWARD")) ||
  (table == "nat" && (chain == "PREROUTING" || chain == "POSTROUTING" || chain == "OUTPUT")) ||
  (table == "mangle" && (chain == "PREROUTING" || chain == "OUTPUT" || chain == "FORWARD" ||
      chain == "INPUT" || chain == "POSTROUTING")) ||
  (table == "raw" && (chain == "PREROUTING" || chain == "OUTPUT"))

/-- Embeds Go `strings.Join(elems, sep)`: empty input gives the empty
string; otherwise the first element followed by `sep + elem` for the
rest. -/
def stringsJoin : List String → String → String
  | [], _ => ""
  | a :: as, sep => as.foldl (fun acc e => acc ++ sep ++ e) a

/-- Body of the chain loop in Go `GenerateInputFromRuleSet`: append one
`:<chain> <policy> [0:0]` line to the accumulator. -/
def renderChainStep (table ret chain : String) : String :=
  let policy := if isInternalChain table chain then "ACCEPT" else "-"
  ret ++ stringsJoin [":", chain, " " ++ policy ++ " [0:0]\n"] ""

/-- Body of the rule loop in Go `GenerateInputFromRuleSet`: append one
`-A <chain> <args…>` line to the accumulator. -/
def renderRuleStep (ret : String) (ruleEntry : IPTablesRule) : String :=
  ret ++ stringsJoin (["-A", ruleEntry.chain] ++ ruleEntry.rule) " " ++ "\n"

/-- Body of the table loop in Go `GenerateInputFromRuleSet`: the table
header, the chain loop, the rule loop, and the closing `COMMIT`. -/
def renderTableStep (ret : String) (ruleSet : IPTablesRuleSet) : String :=
  (ruleSet.rules.foldl renderRuleStep
    (ruleSet.chains.foldl (renderChainStep ruleSet.table)
      (ret ++ "*" ++ ruleSet.table ++ "\n"))) ++ "COMMIT\n"

/-- Embeds Go `GenerateInputFromRuleSet`: a string accumulator grown by
the table loop. -/
def GenerateInputFromRuleSet (h : IPTablesHelper) : String :=
  h.ruleSets.foldl renderTableStep ""

/-- Concatenation of a list of strings. -/
def strConcat : List String → String
  | [] => ""
  | s :: rest => s ++ strConcat rest

/-- The enumerated built-in set of the specification (§6): the (table,
chain) pairs whose default policy line is `ACCEPT`. -/
def BuiltinPair (table chain : String) : Prop :=
  (table = "filter" ∧ (chain = "INPUT" ∨ chain = "OUTPUT" ∨ chain = "FORWARD")) ∨
  (table = "nat" ∧ (chain = "PREROUTING" ∨ chain = "POSTROUTING" ∨ chain = "OUTPUT")) ∨
  (table = "mangle" ∧ (chain = "PREROUTING" ∨ chain = "OUTPUT" ∨ chain = "FORWARD" ∨
      chain = "INPUT" ∨ chain = "POSTROUTING")) ∨
  (table = "raw" ∧ (chain = "PREROUTING" ∨ chain = "OUTPUT"))

instance (table chain : String) : Decidable (BuiltinPair table chain) := by
  unfold BuiltinPair; infer_instance

/-- The block format claimed by the specification for one table:
`*<table>`, one `:<chain> <policy> [0:0]` line per registered chain with
the policy `ACCEPT` exactly when the pair is in the enumerated built-in
set and `-` otherwise, one `-A <chain> <args…>` line per registered
rule, and exactly one closing `COMMIT` line. -/
def specTableBlock (rs : IPTablesRuleSet) : String :=
  "*" ++ rs.table ++ "\n" ++
  strConcat (rs.chains.map fun c =>
    ":" ++ c ++ " " ++ (if BuiltinPair rs.table c then "ACCEPT" else "-") ++ " [0:0]\n") ++
  strConcat (rs.rules.map fun e =>
    "-A " ++ e.chain ++ strConcat (e.rule.map fun a => " " ++ a) ++ "\n") ++
  "COMMIT\n"

lemma isInternalChain_eq_builtin (table chain : String) :
    isInternalChain table chain = true ↔ BuiltinPair table chain := by
  simp only [isInternalChain, BuiltinPair, Bool.or_eq_true, Bool.and_eq_true, beq_iff_eq]
  tauto

lemma foldl_append_strConcat {α : Type} (f : α → String) (l : List α) (acc : String) :
    l.foldl (fun a x => a ++ f x) acc = acc ++ strConcat (l.map f) := by
  induction l generalizing acc with
  | nil => simp [strConcat]
  | cons x xs ih =>
    rw [List.foldl_cons, ih]
    simp [strConcat, String.append_assoc]

lemma stringsJoin_rule (chain : String) (rule : List String) :
    stringsJoin (["-A", chain] ++ rule) " " =
      "-A " ++ chain ++ strConcat (rule.map fun a => " " ++ a) := by
  show rule.foldl (fun acc e => acc ++ " " ++ e) ("-A" ++ " " ++ chain) = _
  have key : ∀ (l : List String) (acc : String),
      l.foldl (fun acc e => acc ++ " " ++ e) acc =
        acc ++ strConcat (l.map fun a => " " ++ a) := by
    intro l
    induction l with
    | nil => intro acc; simp [strConcat]
    | cons x xs ih =>
      intro acc
      rw [List.foldl_cons, ih]
      simp [strConcat, String.append_assoc]
  rw [key]
  simp [String.append_assoc]

lemma renderChainStep_eq (table ret chain : String) :
    renderChainStep table ret chain =
      ret ++ (":" ++ chain ++ " " ++
        (if BuiltinPair table chain then "ACCEPT" else "-") ++ " [0:0]\n") := by
  have hpol : (if isInternalChain table chain then "ACCEPT" else "-") =
      (if BuiltinPair table chain then "ACCEPT" else "-") := by
    by_cases hb : BuiltinPair table chain
    · rw [if_pos hb, if_pos ((isInternalChain_eq_builtin table chain).mpr hb)]
    · rw [if_neg hb, if_neg fun hc =>
        hb ((isInternalChain_eq_builtin table chain).mp hc)]
  show ret ++ stringsJoin [":", chain, _] "" = _
  show ret ++ ([chain, " " ++ _ ++ " [0:0]\n"].foldl (fun acc e => acc ++ "" ++ e) ":") = _
  simp only [List.foldl, hpol]
  simp [String.append_assoc]

lemma renderRuleStep_eq (ret : String) (e : IPTablesRule) :
    renderRuleStep ret e =
      ret ++ ("-A " ++ e.chain ++ strConcat (e.rule.map fun a => " " ++ a) ++ "\n") := by
  show ret ++ stringsJoin (["-A", e.chain] ++ e.rule) " " ++ "\n" = _
  rw [stringsJoin_rule]
  simp [String.append_assoc]

lemma renderTableStep_eq (ret : String) (rs : IPTablesRuleSet) :
    renderTableStep ret rs = ret ++ specTableBlock rs := by
  show (rs.rules.foldl renderRuleStep
      (rs.chains.foldl (renderChainStep rs.table) (ret ++ "*" ++ rs.table ++ "\n"))) ++
      "COMMIT\n" = _
  rw [show renderChainStep rs.table = (fun (a : String) (c : String) => a ++
      (":" ++ c ++ " " ++ (if BuiltinPair rs.table c then "ACCEPT" else "-") ++ " [0:0]\n")) from
    funext fun a => funext fun c => renderChainStep_eq rs.table a c]
  rw [show renderRuleStep = (fun (a : String) (e : IPTablesRule) => a ++
      ("-A " ++ e.chain ++ strConcat (e.rule.map fun x => " " ++ x) ++ "\n")) from
    funext fun a => funext fun e => renderRuleStep_eq a e]
  rw [foldl_append_strConcat, foldl_append_strConcat]
  simp [specTableBlock, String.append_assoc]

/-- Claim C2: `GenerateInputFromRuleSet` renders, for every registered
table in order, exactly the block `*<table>`, one `:<chain> <policy>
[0:0]` line per registered chain with policy `ACCEPT` exactly when the
(table, chain) pair is in the enumerated built-in set and `-`
otherwise, one `-A <chain> <args…>` line per registered rule, and
exactly one `COMMIT` line per table. -/
theorem generateInputFromRuleSet_format (h : IPTablesHelper) :
    GenerateInputFromRuleSet h = strConcat (h.ruleSets.map specTableBlock) := by
  show h.ruleSets.foldl renderTableStep "" = _
  have key : ∀ (l : List IPTablesRuleSet) (acc : String),
      l.foldl renderTableStep acc = acc ++ strConcat (l.map specTableBlock) := by
    intro l
    induction l with
    | nil => intro acc; simp [strConcat]
    | cons x xs ih =>
      intro acc
      rw [List.foldl_cons, ih, renderTableStep_eq]
      simp [strConcat, String.append_assoc]
  rw [key]
  simp

/- ===================================================================
   Part 2: builder mutation operations (CreateChain, AppendUniqueRule)
   and idempotence of AppendUniqueRule.
   =================================================================== -/

/-- Embeds Go `rulesEqual`: same length and pointwise equal argument
vectors. -/
def rulesEqual : List String → List String → Bool
  | [], [] => true
  | a :: as, b :: bs => a == b && rulesEqual as bs
  | _, _ => false

lemma rulesEqual_iff : ∀ one other : List String, rulesEqual one other = true ↔ one = other
  | [], [] => by simp [rulesEqual]
  | [], _ :: _ => by simp [rulesEqual]
  | _ :: _, [] => by simp [rulesEqual]
  | a :: as, b :: bs => by
    simp [rulesEqual, rulesEqual_iff as bs]

lemma rulesEqual_refl (r : List String) : rulesEqual r r = true :=
  (rulesEqual_iff r r).mpr rfl

/-- Embeds the chain-registration step of Go `CreateChain` on one
table: `findChain` followed by an append when absent. -/
def ensureChain (chains : List String) (chain : String) : List String :=
  if chains.contains chain then chains else chains ++ [chain]

/-- Embeds Go `CreateChain` on the ruleset list: `findTable` walks the
tables in order; a missing table is appended at the end with the chain
registered; an existing table gets the chain registered when absent. -/
def createChainAux : List IPTablesRuleSet → String → String → List IPTablesRuleSet
  | [], table, chain => [⟨table, [chain], []⟩]
  | rs :: rest, table, chain =>
    if rs.table == table then ⟨rs.table, ensureChain rs.chains chain, rs.rules⟩ :: rest
    else rs :: createChainAux rest table chain

/-- Embeds Go `CreateChain`. -/
def CreateChain (h : IPTablesHelper) (table chain : String) : IPTablesHelper :=
  { h with ruleSets := createChainAux h.ruleSets table chain }

/-- The duplicate scan of Go `AppendUniqueRule`: some existing rule of
the table has the same chain and an identical argument vector. -/
def hasMatchingRule (rules : List IPTablesRule) (chain : String) (rule : List String) : Bool :=
  rules.any fun e => e.chain == chain && rulesEqual e.rule rule

/-- Embeds Go `AppendUniqueRule` on the ruleset list: ensure table and
chain exist (a missing table is appended at the end carrying the chain),
then append the rule unless an identical rule already exists in the
chain. -/
def appendUniqueAux : List IPTablesRuleSet → String → String → List String → List IPTablesRuleSet
  | [], table, chain, rule => [⟨table, [chain], [⟨chain, rule⟩]⟩]
  | rs :: rest, table, chain, rule =>
    if rs.table == table then
      ⟨rs.table, ensureChain rs.chains chain,
        if hasMatchingRule rs.rules chain rule then rs.rules
        else rs.rules ++ [⟨chain, rule⟩]⟩ :: rest
    else rs :: appendUniqueAux rest table chain rule

/-- Embeds Go `AppendUniqueRule`. -/
def AppendUniqueRule (h : IPTablesHelper) (table chain : String) (rule : List String) :
    IPTablesHelper :=
  { h with ruleSets := appendUniqueAux h.ruleSets table chain rule }

/-- Embeds Go `ClearAllRules`. -/
def ClearAllRules (h : IPTablesHelper) : IPTablesHelper :=
  { h with ruleSets := [] }

/-- Number of rules of the first table named `table` whose chain is
`chain` and whose argument vector is `rule` (the block of that table is
the one `GenerateInputFromRuleSet` renders for it). -/
def ruleCount : List IPTablesRuleSet → String → String → List String → Nat
  | [], _, _, _ => 0
  | rs :: rest, table, chain, rule =>
    if rs.table == table then
      rs.rules.countP fun e => e.chain == chain && rulesEqual e.rule rule
    else ruleCount rest table chain rule

lemma ensureChain_contains (chains : List String) (chain : String) :
    (ensureChain chains chain).contains chain = true := by
  unfold ensureChain
  by_cases h : chains.contains chain
  · rw [if_pos h]; exact h
  · rw [if_neg h]
    simp

lemma hasMatchingRule_after (rules : List IPTablesRule) (chain : String) (rule : List String) :
    hasMatchingRule
      (if hasMatchingRule rules chain rule then rules else rules ++ [⟨chain, rule⟩])
      chain rule = true := by
  by_cases h : hasMatchingRule rules chain rule
  · rw [if_pos h]; exact h
  · rw [if_neg h]
    unfold hasMatchingRule
    simp [List.any_append, rulesEqual_refl]

lemma appendUniqueAux_idem (L : List IPTablesRuleSet) (table chain : String)
    (rule : List String) :
    appendUniqueAux (appendUniqueAux L table chain rule) table chain rule =
      appendUniqueAux L table chain rule := by
  induction L with
  | nil =>
    show appendUniqueAux [⟨table, [chain], [⟨chain, rule⟩]⟩] table chain rule = _
    have h1 : hasMatchingRule [⟨chain, rule⟩] chain rule = true := by
      simp [hasMatchingRule, rulesEqual_refl]
    have h2 : ensureChain [chain] chain = [chain] := by
      unfold ensureChain
      rw [if_pos (by simp)]
    rw [appendUniqueAux, appendUniqueAux]
    rw [if_pos (by simp)]
    dsimp only
    rw [h1, h2]
    simp
  | cons rs rest ih =>
    obtain ⟨rt, rchains, rrules⟩ := rs
    by_cases ht : rt == table
    · rw [appendUniqueAux, if_pos ht]
      rw [appendUniqueAux, if_pos ht]
      have hch : ensureChain (ensureChain rchains chain) chain = ensureChain rchains chain := by
        rw [ensureChain, if_pos (ensureChain_contains rchains chain)]
      have hr := hasMatchingRule_after rrules chain rule
      dsimp only
      rw [hch, if_pos hr]
    · rw [appendUniqueAux, if_neg ht]
      rw [appendUniqueAux, if_neg ht]
      rw [ih]

lemma ruleCount_appendUniqueAux (L : List IPTablesRuleSet) (table chain : String)
    (rule : List String) (h0 : ruleCount L table chain rule = 0) :
    ruleCount (appendUniqueAux L table chain rule) table chain rule = 1 := by
  induction L with
  | nil =>
    show ruleCount [⟨table, [chain], [⟨chain, rule⟩]⟩] table chain rule = 1
    rw [ruleCount, if_pos (by simp)]
    simp [List.countP_cons, rulesEqual_refl]
  | cons rs rest ih =>
    obtain ⟨rt, rchains, rrules⟩ := rs
    by_cases ht : rt == table
    · rw [ruleCount, if_pos ht] at h0
      dsimp only at h0
      rw [appendUniqueAux, if_pos ht, ruleCount, if_pos ht]
      have hno : hasMatchingRule rrules chain rule = false := by
        unfold hasMatchingRule
        rw [List.any_eq_false]
        intro e he
        have := List.countP_eq_zero.mp h0 e he
        simpa using this
      dsimp only
      rw [hno]
      rw [if_neg (by simp), List.countP_append, h0]
      simp [List.countP_cons, rulesEqual_refl]
    · rw [ruleCount, if_neg ht] at h0
      rw [appendUniqueAux, if_neg ht, ruleCount, if_neg ht]
      exact ih h0

/-- `n` successive calls of `AppendUniqueRule` with the same triple. -/
def applyAppendRepeat (h : IPTablesHelper) (table chain : String) (rule : List String) :
    Nat → IPTablesHelper
  | 0 => h
  | n + 1 => AppendUniqueRule (applyAppendRepeat h table chain rule n) table chain rule

lemma applyAppendRepeat_eq_one (h : IPTablesHelper) (table chain : String)
    (rule : List String) : ∀ n : Nat, 1 ≤ n →
    applyAppendRepeat h table chain rule n = AppendUniqueRule h table chain rule
  | 1, _ => rfl
  | n + 2, _ => by
    show AppendUniqueRule (applyAppendRepeat h table chain rule (n + 1)) table chain rule = _
    rw [applyAppendRepeat_eq_one h table chain rule (n + 1) (Nat.le_add_left 1 n)]
    show { h with ruleSets :=
      appendUniqueAux (appendUniqueAux h.ruleSets table chain rule) table chain rule } = _
    rw [appendUniqueAux_idem]
    rfl

/-- Claim C3: `AppendUniqueRule` is idempotent.  Applying the same
(table, chain, args) triple `n ≥ 1` times yields the same serialized
ruleset as applying it once, and when the rule was not present before,
after the repeated appends it occurs exactly once in its table. -/
theorem appendUniqueRule_idempotent (h : IPTablesHelper) (table chain : String)
    (rule : List String) (n : Nat) (hn : 1 ≤ n) :
    GenerateInputFromRuleSet (applyAppendRepeat h table chain rule n) =
      GenerateInputFromRuleSet (AppendUniqueRule h table chain rule) ∧
    (ruleCount h.ruleSets table chain rule = 0 →
      ruleCount (applyAppendRepeat h table chain rule n).ruleSets table chain rule = 1) := by
  constructor
  · rw [applyAppendRepeat_eq_one h table chain rule n hn]
  · intro h0
    rw [applyAppendRepeat_eq_one h table chain rule n hn]
    exact ruleCount_appendUniqueAux h.ruleSets table chain rule h0

/-- Witness for claim C3 at the specification's concrete scenario: the
empty accumulator, with `("filter", "FABEDGE-FORWARD", ["-j","ACCEPT"])`
appended three times. -/
theorem appendUniqueRule_idempotent_witness :
    GenerateInputFromRuleSet
        (applyAppendRepeat ⟨"iptables-restore", []⟩ "filter" "FABEDGE-FORWARD"
          ["-j", "ACCEPT"] 3) =
      GenerateInputFromRuleSet
        (AppendUniqueRule ⟨"iptables-restore", []⟩ "filter" "FABEDGE-FORWARD"
          ["-j", "ACCEPT"]) ∧
    (ruleCount (⟨"iptables-restore", ([] : List IPTablesRuleSet)⟩ : IPTablesHelper).ruleSets
        "filter" "FABEDGE-FORWARD" ["-j", "ACCEPT"] = 0 →
      ruleCount (applyAppendRepeat ⟨"iptables-restore", []⟩ "filter" "FABEDGE-FORWARD"
          ["-j", "ACCEPT"] 3).ruleSets "filter" "FABEDGE-FORWARD" ["-j", "ACCEPT"] = 1) :=
  appendUniqueRule_idempotent ⟨"iptables-restore", []⟩ "filter" "FABEDGE-FORWARD"
    ["-j", "ACCEPT"] 3 (by decide)

/- ===================================================================
   Part 3: ReplaceRules and the restore-tool invocation.
   =================================================================== -/

/-- Outcome of one invocation of the external restore tool: captured
standard output, captured standard error, and the exit state (`none`
for success, `some msg` for a non-zero exit whose rendered error text
is `msg`, as `%w` formats it). -/
structure ToolResult where
  stdout : String
  stderr : String
  exitErr : Option String
deriving DecidableEq, Repr

/-- The environment's restore tool: a function from the invoked command
name, its argument list, and the text fed to standard input, to the
observed result. -/
def ToolRunner : Type := String → List String → String → ToolResult

/-- Embeds Go `runRestoreCommand`: appends `--wait` to the argument
list and runs `h.restoreCommand` on the given standard input. -/
def runRestoreCommand (h : IPTablesHelper) (run : ToolRunner) (args : List String)
    (stdin : String) : ToolResult :=
  run h.restoreCommand (args ++ ["--wait"]) stdin

/-- The error text Go `ReplaceRules` formats on a non-zero exit. -/
def replaceRulesError (stdout stderr errText : String) : String :=
  "iptables-helper: fail to replace rules. stdout = " ++ stdout ++
    "; stderr = " ++ stderr ++ "; error = " ++ errText

/-- Embeds Go `ReplaceRules`: serialize the accumulator, feed it to the
restore tool with no extra arguments, and wrap a failure into an error
carrying stdout, stderr, and the exit state; `none` models a nil
error. -/
def ReplaceRules (h : IPTablesHelper) (run : ToolRunner) : Option String :=
  let rules := GenerateInputFromRuleSet h
  let res := runRestoreCommand h run [] rules
  match res.exitErr with
  | some e => some (replaceRulesError res.stdout res.stderr e)
  | none => none

/-- `a` occurs contiguously inside `b`. -/
def StrInfix (a b : String) : Prop := ∃ x y, b = x ++ a ++ y

lemma strInfix_middle (pre a post : String) : StrInfix a (pre ++ a ++ post) :=
  ⟨pre, post, rfl⟩

/-- Claim C7: `ReplaceRules` invokes the restore tool with `--wait`;
on a non-zero exit it returns an error whose text contains the tool's
stdout, stderr, and exit state, and on success it returns nil. -/
theorem replaceRules_spec (h : IPTablesHelper) (run : ToolRunner) :
    (∀ args stdin, runRestoreCommand h run args stdin =
      run h.restoreCommand (args ++ ["--wait"]) stdin) ∧
    (∀ out err e,
      run h.restoreCommand ["--wait"] (GenerateInputFromRuleSet h) = ⟨out, err, some e⟩ →
      ∃ msg, ReplaceRules h run = some msg ∧
        StrInfix out msg ∧ StrInfix err msg ∧ StrInfix e msg) ∧
    (∀ out err,
      run h.restoreCommand ["--wait"] (GenerateInputFromRuleSet h) = ⟨out, err, none⟩ →
      ReplaceRules h run = none) := by
  refine ⟨fun args stdin => rfl, ?_, ?_⟩
  · intro out err e hrun
    refine ⟨replaceRulesError out err e, ?_, ?_, ?_, ?_⟩
    · show (match (run h.restoreCommand ([] ++ ["--wait"]) (GenerateInputFromRuleSet h)).exitErr
          with
        | some e => some (replaceRulesError
            (run h.restoreCommand ([] ++ ["--wait"]) (GenerateInputFromRuleSet h)).stdout
            (run h.restoreCommand ([] ++ ["--wait"]) (GenerateInputFromRuleSet h)).stderr e)
        | none => none) = _
      rw [List.nil_append, hrun]
    · exact ⟨"iptables-helper: fail to replace rules. stdout = ",
        "; stderr = " ++ err ++ "; error = " ++ e, by
          simp [replaceRulesError, String.append_assoc]⟩
    · exact ⟨"iptables-helper: fail to replace rules. stdout = " ++ out ++ "; stderr = ",
        "; error = " ++ e, by simp [replaceRulesError, String.append_assoc]⟩
    · exact ⟨"iptables-helper: fail to replace rules. stdout = " ++ out ++ "; stderr = " ++
        err ++ "; error = ", "", by simp [replaceRulesError, String.append_assoc]⟩
  · intro out err hrun
    show (match (run h.restoreCommand ([] ++ ["--wait"]) (GenerateInputFromRuleSet h)).exitErr
        with
      | some e => some (replaceRulesError
          (run h.restoreCommand ([] ++ ["--wait"]) (GenerateInputFromRuleSet h)).stdout
          (run h.restoreCommand ([] ++ ["--wait"]) (GenerateInputFromRuleSet h)).stderr e)
      | none => none) = none
    rw [List.nil_append, hrun]

/-- A concrete failing restore tool used by the C7 witness. -/
def failingRunner : ToolRunner := fun _ _ _ => ⟨"out-text", "err-text", some "exit status 2"⟩

/-- Witness for claim C7: a tool that exits non-zero yields an error
containing its stdout, stderr, and exit state. -/
theorem replaceRules_spec_witness :
    ∃ msg, ReplaceRules ⟨"iptables-restore", []⟩ failingRunner = some msg ∧
      StrInfix "out-text" msg ∧ StrInfix "err-text" msg ∧ StrInfix "exit status 2" msg :=
  (replaceRules_spec ⟨"iptables-restore", []⟩ failingRunner).2.1
    "out-text" "err-text" "exit status 2" rfl

/- ===================================================================
   Part 4: endpoints, the endpoint store, and connector peer assembly.
   =================================================================== -/

/-- Modelled from the spec: the `types.Endpoint` record (§3) with the
fields the connector controller populates and the config emitter
serializes (`ID`, `Name`, `PublicAddresses`, `Subnets`,
`NodeSubnets`); the package defining it is not among the excerpted
sources. -/
structure Endpoint where
  id : String
  name : String
  publicAddresses : List String
  subnets : List String
  nodeSubnets : List String
deriving DecidableEq, Repr

instance : Inhabited Endpoint := ⟨⟨"", "", [], [], []⟩⟩

/-- Modelled from the spec: the `netconf.TunnelEndpoint` record written
to the NetworkConf artifact (§6), carrying the same fields. -/
structure TunnelEndpoint where
  id : String
  name : String
  publicAddresses : List String
  subnets : List String
  nodeSubnets : List String
deriving DecidableEq, Repr

/-- Modelled from the spec: `Endpoint.ConvertToTunnelEndpoint`
projects an endpoint onto the serialized record. -/
def convertToTunnelEndpoint (e : Endpoint) : TunnelEndpoint :=
  ⟨e.id, e.name, e.publicAddresses, e.subnets, e.nodeSubnets⟩

/-- First-match lookup in an association list, the shape of a Go map
read. -/
def assocLookup {β : Type} : List (String × β) → String → Option β
  | [], _ => none
  | (k, v) :: rest, key => if k == key then some v else assocLookup rest key

/-- Modelled from the spec: the Endpoint Store (§4.1) is a map from
endpoint name to Endpoint; the store implementation is not among the
excerpted sources. -/
abbrev EndpointStore : Type := List (String × Endpoint)

/-- Modelled from the spec: `GetAllEndpointNames` returns the key set
of the store; its `Values()` view is the ascending sorted list of the
names. -/
def getAllEndpointNamesValues (s : EndpointStore) : List String :=
  sortStrings ((s.map Prod.fst).dedup)

/-- Modelled from the spec: `GetEndpoints(names…)` returns the stored
endpoints following the argument order, silently skipping missing
names. -/
def GetEndpoints (s : EndpointStore) (names : List String) : List Endpoint :=
  names.filterMap (assocLookup s)

/-- Embeds Go `getPeers` of the connector controller: fetch all
endpoint names from the store, resolve them, and convert each to a
tunnel endpoint.  No endpoint is excluded. -/
def getPeers (s : EndpointStore) : List TunnelEndpoint :=
  (GetEndpoints s (getAllEndpointNamesValues s)).map convertToTunnelEndpoint

/-- Order on endpoints by `Name`, byte-wise. -/
def endpointNameLe (a b : Endpoint) : Prop := goStrLe a.name b.name

instance : DecidableRel endpointNameLe := fun a b =>
  inferInstanceAs (Decidable (goStrLe a.name b.name))

/-- The claim's peer list: the sort-by-Name of the stored endpoint set
minus the connector's own endpoint. -/
def specConnectorPeers (connectorName : String) (s : EndpointStore) : List TunnelEndpoint :=
  (((s.map Prod.snd).filter (fun e => !(e.name == connectorName))).insertionSort
      endpointNameLe).map convertToTunnelEndpoint

/-- The connector endpoint used in the C1 counterexample. -/
def connectorEp : Endpoint :=
  ⟨"connector-id", "connector", ["45.0.0.1"], ["192.168.0.0/16"], ["10.0.0.1"]⟩

/-- A store state that contains the connector's own endpooint. -/
def storeWithConnector : EndpointStore := [("connector", connectorEp)]

/-- Counterexample to claim C1 as stated: when the connector's own
endpoint is in the store, `getPeers` emits it, whereas the claimed
equation requires it to be removed: the two sides differ. -/
theorem getPeers_counterexample :
    getPeers storeWithConnector ≠ specConnectorPeers "connector" storeWithConnector := by
  decide

lemma filterMap_eq_map_of_some {α β : Type} (f : α → Option β) (g : α → β) :
    ∀ l : List α, (∀ a ∈ l, f a = some (g a)) → l.filterMap f = l.map g
  | [], _ => rfl
  | a :: as, h => by
    rw [List.filterMap_cons, h a (List.mem_cons_self a as), List.map_cons,
      filterMap_eq_map_of_some f g as fun x hx => h x (List.mem_cons_of_mem a hx)]

lemma assocLookup_isSome {β : Type} :
    ∀ (s : List (String × β)) (k : String), k ∈ s.map Prod.fst →
      ∃ v, assocLookup s k = some v
  | [], _, h => by simp at h
  | (k0, v0) :: rest, k, h => by
    by_cases hk : k0 == k
    · exact ⟨v0, by rw [assocLookup, if_pos hk]⟩
    · have : k ∈ rest.map Prod.fst := by
        rcases List.mem_cons.mp h with h0 | h0
        · exact absurd (by simp [h0]) hk
        · exact h0
      obtain ⟨v, hv⟩ := assocLookup_isSome rest k this
      exact ⟨v, by rw [assocLookup, if_neg hk]; exact hv⟩

lemma assocLookup_mem {β : Type} :
    ∀ (s : List (String × β)) (k : String) (v : β), assocLookup s k = some v → (k, v) ∈ s
  | [], _, _, h => by simp [assocLookup] at h
  | (k0, v0) :: rest, k, v, h => by
    by_cases hk : k0 == k
    · rw [assocLookup, if_pos hk] at h
      have : v0 = v := by injection h
      have hk0 : k0 = k := by simpa using hk
      subst hk0
      subst this
      exact List.mem_cons_self _ _
    · rw [assocLookup, if_neg hk] at h
      exact List.mem_cons_of_mem _ (assocLookup_mem rest k v h)

lemma assocLookup_map_getD {β : Type} (dflt : β) :
    ∀ s : List (String × β), (s.map Prod.fst).Nodup →
      (s.map Prod.fst).map (fun k => (assocLookup s k).getD dflt) = s.map Prod.snd
  | [], _ => rfl
  | (k0, v0) :: rest, hnd => by
    have hnd' : (k0 ∉ rest.map Prod.fst) ∧ (rest.map Prod.fst).Nodup := by
      rw [List.map_cons, List.nodup_cons] at hnd
      exact hnd
    simp only [List.map_cons]
    have hhead : (assocLookup ((k0, v0) :: rest) k0).getD dflt = v0 := by
      rw [assocLookup, if_pos (by simp)]
      rfl
    have htail : (rest.map Prod.fst).map
        (fun k => (assocLookup ((k0, v0) :: rest) k).getD dflt) =
        (rest.map Prod.fst).map (fun k => (assocLookup rest k).getD dflt) := by
      apply List.map_congr_left
      intro k hk
      have hne : ¬(k0 == k) := by
        intro hc
        have e : k0 = k := by simpa using hc
        subst e
        exact hnd'.1 hk
      rw [assocLookup, if_neg hne]
    rw [hhead, htail, assocLookup_map_getD dflt rest hnd'.2]

/-- Claim C1 (amended): the Peers list published for the connector is
the sort-by-Name of the whole endpoint set in the store converted to
tunnel endpoints; no endpoint — in particular not the connector's own —
is excluded by `getPeers`.  Hypotheses: store keys are unique and each
stored endpoint is keyed by its own name, the invariants `Save`
maintains. -/
theorem getPeers_eq_sorted_store_endpoints (s : EndpointStore)
    (hnd : (s.map Prod.fst).Nodup)
    (hname : ∀ p ∈ s, (p.2).name = p.1) :
    getPeers s =
      ((s.map Prod.snd).insertionSort endpointNameLe).map convertToTunnelEndpoint := by
  unfold getPeers GetEndpoints getAllEndpointNamesValues sortStrings
  rw [List.Nodup.dedup hnd]
  have hgetname : ∀ k ∈ s.map Prod.fst,
      ((assocLookup s k).getD default).name = k := by
    intro k hk
    obtain ⟨v, hv⟩ := assocLookup_isSome s k hk
    rw [hv]
    exact hname (k, v) (assocLookup_mem s k v hv)
  have hg : ∀ k ∈ (s.map Prod.fst).insertionSort goStrLe,
      assocLookup s k = some ((assocLookup s k).getD default) := by
    intro k hk
    obtain ⟨v, hv⟩ := assocLookup_isSome s k ((List.mem_insertionSort goStrLe).mp hk)
    rw [hv]
    rfl
  rw [filterMap_eq_map_of_some _ _ _ hg]
  have hcmp : ∀ a ∈ s.map Prod.fst, ∀ b ∈ s.map Prod.fst,
      goStrLe a b ↔ endpointNameLe ((assocLookup s a).getD default)
        ((assocLookup s b).getD default) := by
    intro a ha b hb
    unfold endpointNameLe
    rw [hgetname a ha, hgetname b hb]
  rw [List.map_insertionSort goStrLe endpointNameLe _ _ hcmp]
  rw [assocLookup_map_getD default s hnd]

/-- Two edge endpoints used by the C1 witness. -/
def epEdgeA : Endpoint := ⟨"id-a", "edge-a", ["1.1.1.1"], ["10.244.1.0/24"], ["10.0.0.1"]⟩

/-- Second edge endpoint of the C1 witness. -/
def epEdgeB : Endpoint := ⟨"id-b", "edge-b", ["1.1.1.2"], ["10.244.2.0/24"], ["10.0.0.2"]⟩

/-- A two-entry store, deliberately keyed out of order. -/
def twoEndpointStore : EndpointStore := [("edge-b", epEdgeB), ("edge-a", epEdgeA)]

/-- Witness for the amended claim C1 at a concrete store. -/
theorem getPeers_eq_sorted_store_endpoints_witness :
    getPeers twoEndpointStore =
      ((twoEndpointStore.map Prod.snd).insertionSort endpointNameLe).map
        convertToTunnelEndpoint :=
  getPeers_eq_sorted_store_endpoints twoEndpointStore (by decide) (by decide)

/- ===================================================================
   Part 5: the connector controller (node cache, addNode, removeNode,
   onNodeRequest, rebuildConnectorEndpoint).
   =================================================================== -/

/-- Embeds the controller's `Node` record: the cached projection of an
orchestrator node. -/
structure CachedNode where
  name : String
  ip : String
  podCIDRs : List String
deriving DecidableEq, Repr

/-- A fetched orchestrator node as the controller reads it:
`nodeutil.GetIP` and `nodeutil.GetPodCIDRs` are modelled as the
pre-extracted `ip` and `podCIDRs` fields, and the deletion timestamp
is `none` for a live node. -/
structure NodeObject where
  name : String
  ip : String
  podCIDRs : List String
  deletionTimestamp : Option Nat
deriving DecidableEq, Repr

/-- The controller's static configuration relevant to endpoint
rebuilding (from Go `Config` / the `controller` struct fields). -/
structure ConnectorConfig where
  connectorID : String
  connectorName : String
  connectorPublicAddresses : List String
  providedSubnets : List String
  collectPodCIDRs : Bool
deriving DecidableEq, Repr

/-- The controller's mutable state: the string set of node names, the
node cache, and the connector-endpoint snapshot. -/
structure ControllerState where
  nodeNameSet : List String
  nodeCache : List (String × CachedNode)
  connectorEndpoint : Endpoint
deriving DecidableEq, Repr

/-- Go map assignment `m[k] = v`: replace the binding when present,
append it otherwise. -/
def assocSet {β : Type} : List (String × β) → String → β → List (String × β)
  | [], k, v => [(k, v)]
  | (k0, v0) :: rest, k, v =>
    if k0 == k then (k, v) :: rest else (k0, v0) :: assocSet rest k v

/-- Go map read `m[k]` with the zero `Node` for a missing key. -/
def cacheGet (m : List (String × CachedNode)) (k : String) : CachedNode :=
  (assocLookup m k).getD ⟨"", "", []⟩

/-- `stringset.Set.Add`: insert when absent. -/
def setAdd (s : List String) (x : String) : List String :=
  if s.contains x then s else s ++ [x]

/-- `stringset.Set.Remove`: drop the member. -/
def setRemove (s : List String) (x : String) : List String :=
  s.filter fun y => !(y == x)

/-- Embeds Go `rebuildConnectorEndpoint` as the pure function of cache
and static config it computes: provided subnets followed by the cached
PodCIDRs in ascending node-name order (`stringset.Values` is sorted),
and the cached node IPs in the same order. -/
def rebuildConnectorEndpoint (cfg : ConnectorConfig) (st : ControllerState) : Endpoint :=
  ⟨cfg.connectorID, cfg.connectorName, cfg.connectorPublicAddresses,
    cfg.providedSubnets ++
      ((sortStrings st.nodeNameSet).map fun n => (cacheGet st.nodeCache n).podCIDRs).flatten,
    (sortStrings st.nodeNameSet).map fun n => (cacheGet st.nodeCache n).ip⟩

/-- Embeds Go `addNode`: skip a node lacking IP or PodCIDRs, discard
PodCIDRs when `CollectPodCIDRs` is false, return unchanged when the
name is already in the name set, otherwise cache the node and, when
`rebuild` is set, refresh the connector-endpoint snapshot. -/
def addNode (cfg : ConnectorConfig) (st : ControllerState) (node : NodeObject)
    (rebuild : Bool) : ControllerState :=
  if node.ip.length = 0 ∨ node.podCIDRs.length = 0 then st
  else
    let podCIDRs := if cfg.collectPodCIDRs then node.podCIDRs else []
    if st.nodeNameSet.contains node.name then st
    else
      let st' : ControllerState :=
        { st with
          nodeNameSet := setAdd st.nodeNameSet node.name,
          nodeCache := assocSet st.nodeCache node.name ⟨node.name, node.ip, podCIDRs⟩ }
      if rebuild then { st' with connectorEndpoint := rebuildConnectorEndpoint cfg st' }
      else st'

/-- Embeds Go `removeNode`: drop the name from the name set and the
cache, then refresh the connector-endpoint snapshot. -/
def removeNode (cfg : ConnectorConfig) (st : ControllerState) (nodeName : String) :
    ControllerState :=
  let st' : ControllerState :=
    { st with
      nodeNameSet := setRemove st.nodeNameSet nodeName,
      nodeCache := st.nodeCache.filter fun p => !(p.1 == nodeName) }
  { st' with connectorEndpoint := rebuildConnectorEndpoint cfg st' }

/-- Outcome of the node fetch inside `onNodeRequest`. -/
inductive FetchResult where
  | notFound
  | fetchError
  | found (node : NodeObject)
deriving DecidableEq, Repr

/-- Embeds Go `onNodeRequest`: NotFound drops the node, another fetch
error is returned (`true` in the second component), a node carrying a
deletion timestamp is dropped, and otherwise the node is added with a
rebuild of the snapshot. -/
def onNodeRequest (cfg : ConnectorConfig) (st : ControllerState) (requestName : String)
    (fetch : FetchResult) : ControllerState × Bool :=
  match fetch with
  | .notFound => (removeNode cfg st requestName, false)
  | .fetchError => (st, true)
  | .found node =>
    if node.deletionTimestamp ≠ none then (removeNode cfg st requestName, false)
    else (addNode cfg st node true, false)

/-- The freshly constructed controller state (empty name set, empty
cache, zero-valued endpoint snapshot). -/
def initialControllerState : ControllerState := ⟨[], [], default⟩

/-- A controller state reached by a sequence of `addNode` calls from
the fresh state, each with its own rebuild flag. -/
def applyAddNodes (cfg : ConnectorConfig) (ops : List (NodeObject × Bool)) : ControllerState :=
  ops.foldl (fun st op => addNode cfg st op.1 op.2) initialControllerState

lemma mem_assocSet {β : Type} :
    ∀ (m : List (String × β)) (k : String) (v : β) (p : String × β),
      p ∈ assocSet m k v → p = (k, v) ∨ p ∈ m
  | [], _, _, p, hp => by
    rcases List.mem_singleton.mp hp with h
    exact Or.inl h
  | (k0, v0) :: rest, k, v, p, hp => by
    by_cases hk : k0 == k
    · rw [assocSet, if_pos hk] at hp
      rcases List.mem_cons.mp hp with h | h
      · exact Or.inl h
      · exact Or.inr (List.mem_cons_of_mem _ h)
    · rw [assocSet, if_neg hk] at hp
      rcases List.mem_cons.mp hp with h | h
      · exact Or.inr (h ▸ List.mem_cons_self _ _)
      · rcases mem_assocSet rest k v p h with h' | h'
        · exact Or.inl h'
        · exact Or.inr (List.mem_cons_of_mem _ h')

lemma addNode_no_podCIDRs (cfg : ConnectorConfig) (hc : cfg.collectPodCIDRs = false)
    (st : ControllerState) (node : NodeObject) (b : Bool)
    (hst : ∀ p ∈ st.nodeCache, (p.2).podCIDRs = []) :
    ∀ p ∈ (addNode cfg st node b).nodeCache, (p.2).podCIDRs = [] := by
  unfold addNode
  by_cases h1 : node.ip.length = 0 ∨ node.podCIDRs.length = 0
  · rw [if_pos h1]; exact hst
  · rw [if_neg h1]
    dsimp only
    rw [hc]
    by_cases h2 : st.nodeNameSet.contains node.name
    · rw [if_pos h2]; exact hst
    · rw [if_neg h2]
      have hcache : ∀ p ∈ assocSet st.nodeCache node.name
          (⟨node.name, node.ip, if False then node.podCIDRs else []⟩ : CachedNode),
          (p.2).podCIDRs = [] := by
        intro p hp
        rcases mem_assocSet _ _ _ p hp with h | h
        · rw [h]; simp
        · exact hst p h
      by_cases hb : b
      · rw [if_pos hb]; exact hcache
      · rw [if_neg hb]; exact hcache

lemma applyAddNodes_no_podCIDRs (cfg : ConnectorConfig) (hc : cfg.collectPodCIDRs = false)
    (ops : List (NodeObject × Bool)) :
    ∀ p ∈ (applyAddNodes cfg ops).nodeCache, (p.2).podCIDRs = [] := by
  have aux : ∀ (l : List (NodeObject × Bool)) (st : ControllerState),
      (∀ p ∈ st.nodeCache, (p.2).podCIDRs = []) →
      ∀ p ∈ (l.foldl (fun st op => addNode cfg st op.1 op.2) st).nodeCache,
        (p.2).podCIDRs = [] := by
    intro l
    induction l with
    | nil => intro st hst; exact hst
    | cons op rest ih =>
      intro st hst
      exact ih (addNode cfg st op.1 op.2) (addNode_no_podCIDRs cfg hc st op.1 op.2 hst)
  exact aux ops initialControllerState (by intro p hp; simp [initialControllerState] at hp)

/-- Claim C4: the rebuilt connector endpoint is the pure function of
node cache and static config: `NodeSubnets` is the cached node IPs in
ascending node-name order; with `CollectPodCIDRs` true, `Subnets` is
`ProvidedSubnets` followed by the cached PodCIDRs in the same order;
with `CollectPodCIDRs` false the PodCIDRs were discarded at caching
time, so `Subnets` is exactly `ProvidedSubnets`. -/
theorem rebuildConnectorEndpoint_pure (cfg : ConnectorConfig) (ops : List (NodeObject × Bool)) :
    ((rebuildConnectorEndpoint cfg (applyAddNodes cfg ops)).nodeSubnets =
      (sortStrings (applyAddNodes cfg ops).nodeNameSet).map
        (fun n => (cacheGet (applyAddNodes cfg ops).nodeCache n).ip)) ∧
    (cfg.collectPodCIDRs = true →
      (rebuildConnectorEndpoint cfg (applyAddNodes cfg ops)).subnets =
        cfg.providedSubnets ++
          ((sortStrings (applyAddNodes cfg ops).nodeNameSet).map
            (fun n => (cacheGet (applyAddNodes cfg ops).nodeCache n).podCIDRs)).flatten) ∧
    (cfg.collectPodCIDRs = false →
      (rebuildConnectorEndpoint cfg (applyAddNodes cfg ops)).subnets = cfg.providedSubnets) := by
  refine ⟨rfl, fun _ => rfl, fun hc => ?_⟩
  show cfg.providedSubnets ++
      ((sortStrings (applyAddNodes cfg ops).nodeNameSet).map
        (fun n => (cacheGet (applyAddNodes cfg ops).nodeCache n).podCIDRs)).flatten =
    cfg.providedSubnets
  have hall : ∀ n ∈ sortStrings (applyAddNodes cfg ops).nodeNameSet,
      (cacheGet (applyAddNodes cfg ops).nodeCache n).podCIDRs = ([] : List String) := by
    intro n _
    unfold cacheGet
    cases hv : assocLookup (applyAddNodes cfg ops).nodeCache n with
    | none => rfl
    | some v =>
      exact applyAddNodes_no_podCIDRs cfg hc ops (n, v) (assocLookup_mem _ n v hv)
  rw [List.map_congr_left hall]
  simp

/-- The configuration of the specification's connector-rebuild
scenario. -/
def cfgScenario : ConnectorConfig :=
  ⟨"connector-id", "connector", ["45.0.0.1"], ["192.168.0.0/16"], true⟩

/-- The two non-edge nodes of the specification's connector-rebuild
scenario. -/
def opsScenario : List (NodeObject × Bool) :=
  [(⟨"n1", "10.0.0.1", ["10.244.1.0/24"], none⟩, false),
   (⟨"n2", "10.0.0.2", ["10.244.2.0/24"], none⟩, false)]

/-- Witness for claim C4 at the specification's concrete scenario. -/
theorem rebuildConnectorEndpoint_pure_witness :
    (rebuildConnectorEndpoint cfgScenario (applyAddNodes cfgScenario opsScenario)).subnets =
      cfgScenario.providedSubnets ++
        ((sortStrings (applyAddNodes cfgScenario opsScenario).nodeNameSet).map
          (fun n => (cacheGet (applyAddNodes cfgScenario opsScenario).nodeCache n).podCIDRs)).flatten :=
  (rebuildConnectorEndpoint_pure cfgScenario opsScenario).2.1 rfl

lemma setRemove_contains (s : List String) (x : String) :
    (setRemove s x).contains x = false := by
  induction s with
  | nil => rfl
  | cons y ys ih =>
    unfold setRemove at ih ⊢
    rw [List.filter_cons]
    by_cases hy : y == x
    · rw [if_neg (by simp [hy])]
      exact ih
    · rw [if_pos (by simp [hy])]
      rw [List.contains_cons]
      simp only [ih, Bool.or_false]
      simpa using fun hc => hy (by simp [hc])

lemma assocLookup_filter_ne {β : Type} (m : List (String × β)) (k : String) :
    assocLookup (m.filter fun p => !(p.1 == k)) k = none := by
  induction m with
  | nil => rfl
  | cons p rest ih =>
    rw [List.filter_cons]
    by_cases hp : p.1 == k
    · rw [if_neg (by simp [hp])]
      exact ih
    · rw [if_pos (by simp [hp])]
      rw [assocLookup, if_neg hp]
      exact ih

/-- A controller state with one cached node, used for the C5 and C10
scenarios. -/
def stOneNode : ControllerState :=
  ⟨["n1"], [("n1", ⟨"n1", "10.0.0.1", ["10.244.1.0/24"]⟩)], default⟩

/-- The configuration used for the C5 and C10 scenarios. -/
def cfgPlain : ConnectorConfig := ⟨"connector-id", "connector", ["45.0.0.2"], [], true⟩

/-- Counterexample to the last part of claim C5 as stated: a cached
node whose fetched object has lost its IP is not removed — the
reconcile leaves the state unchanged and the node stays in the name
set and the cache. -/
theorem node_kept_on_ip_loss_counterexample :
    (onNodeRequest cfgPlain stOneNode "n1" (.found ⟨"n1", "", [], none⟩)).1 = stOneNode ∧
    stOneNode.nodeNameSet.contains "n1" = true ∧
    assocLookup stOneNode.nodeCache "n1" =
      some ⟨"n1", "10.0.0.1", ["10.244.1.0/24"]⟩ := by
  decide

/-- Claim C5 (amended): on NotFound or a non-nil deletion timestamp
the node is dropped from the name set and the cache; a fetched live
node lacking an IP or PodCIDRs is merely skipped — the state,
including any cached entry for it, is left unchanged. -/
theorem onNodeRequest_removal (cfg : ConnectorConfig) (st : ControllerState)
    (reqName : String) (fetch : FetchResult) :
    (fetch = .notFound →
      (onNodeRequest cfg st reqName fetch).1.nodeNameSet.contains reqName = false ∧
      assocLookup (onNodeRequest cfg st reqName fetch).1.nodeCache reqName = none) ∧
    (∀ node, fetch = .found node → node.deletionTimestamp ≠ none →
      (onNodeRequest cfg st reqName fetch).1.nodeNameSet.contains reqName = false ∧
      assocLookup (onNodeRequest cfg st reqName fetch).1.nodeCache reqName = none) ∧
    (∀ node, fetch = .found node → node.deletionTimestamp = none →
      node.ip = "" ∨ node.podCIDRs = [] →
      (onNodeRequest cfg st reqName fetch).1 = st) := by
  refine ⟨?_, ?_, ?_⟩
  · intro hf
    subst hf
    exact ⟨setRemove_contains st.nodeNameSet reqName,
      assocLookup_filter_ne st.nodeCache reqName⟩
  · intro node hf hdt
    subst hf
    have hred : onNodeRequest cfg st reqName (.found node) = (removeNode cfg st reqName, false) := by
      show (if node.deletionTimestamp ≠ none then (removeNode cfg st reqName, false)
          else (addNode cfg st node true, false)) = _
      rw [if_pos hdt]
    rw [hred]
    exact ⟨setRemove_contains st.nodeNameSet reqName,
      assocLookup_filter_ne st.nodeCache reqName⟩
  · intro node hf hdt hempty
    subst hf
    show (if node.deletionTimestamp ≠ none then (removeNode cfg st reqName, false)
        else (addNode cfg st node true, false)).1 = st
    rw [if_neg (by simp [hdt])]
    show addNode cfg st node true = st
    unfold addNode
    rw [if_pos ?hcond]
    case hcond =>
      rcases hempty with h | h
      · exact Or.inl (by rw [h]; rfl)
      · exact Or.inr (by rw [h]; rfl)

/-- Witness for the amended claim C5: a NotFound reconcile drops the
cached node. -/
theorem onNodeRequest_removal_witness :
    (onNodeRequest cfgPlain stOneNode "n1" .notFound).1.nodeNameSet.contains "n1" = false ∧
    assocLookup (onNodeRequest cfgPlain stOneNode "n1" .notFound).1.nodeCache "n1" = none :=
  (onNodeRequest_removal cfgPlain stOneNode "n1" .notFound).1 rfl

/-- Claim C10: `addNode` is insert-only.  When the node's name is
already in the controller's name set (which mirrors the cache keys),
`addNode` returns the state unchanged: the cached entry and the
connector-endpoint snapshot keep their old values even when the
incoming node carries different IP or PodCIDRs. -/
theorem addNode_insert_only (cfg : ConnectorConfig) (st : ControllerState)
    (node : NodeObject) (b : Bool)
    (h : st.nodeNameSet.contains node.name = true) :
    addNode cfg st node b = st := by
  unfold addNode
  by_cases h1 : node.ip.length = 0 ∨ node.podCIDRs.length = 0
  · rw [if_pos h1]
  · rw [if_neg h1]
    dsimp only
    rw [if_pos h]

/-- Witness for claim C10: re-adding `n1` with a different IP and
different PodCIDRs leaves the state unchanged. -/
theorem addNode_insert_only_witness :
    addNode cfgPlain stOneNode ⟨"n1", "10.9.9.9", ["10.244.9.0/24"], none⟩ true = stOneNode :=
  addNode_insert_only cfgPlain stOneNode ⟨"n1", "10.9.9.9", ["10.244.9.0/24"], none⟩ true
    (by decide)

/- ===================================================================
   Part 6: updateConfigMapIfNeeded.
   =================================================================== -/

/-- A ConfigMap object: name, namespace and the string data map. -/
structure ConfigMapObj where
  name : String
  nsName : String
  data : List (String × String)
deriving DecidableEq, Repr

/-- The data key under which the connector config is stored
(`constants.ConnectorConfigFileName`; the constants package is not
among the excerpted sources, and the claims do not depend on the
literal value). -/
def connectorConfigFileName : String := "tunnels.yaml"

/-- Outcome of the ConfigMap fetch inside `updateConfigMapIfNeeded`. -/
inductive GetConfigMapResult where
  | notFound
  | getError
  | found (cm : ConfigMapObj)
deriving DecidableEq, Repr

/-- A write issued against the cluster API. -/
inductive WriteCall where
  | create (cm : ConfigMapObj)
  | update (cm : ConfigMapObj)
deriving DecidableEq, Repr

/-- Embeds Go `updateConfigMapIfNeeded` after the YAML serialization
(`configData` is the marshalled NetworkConf; a marshal failure returns
before any read, issuing no write).  The result is the list of write
calls issued: a fetch error logs and returns; NotFound creates the
ConfigMap; an existing ConfigMap whose payload equals `configData`
(a missing key reads as the empty string, as a Go map does) is
skipped; otherwise the ConfigMap is updated in place. -/
def updateConfigMapIfNeeded (cmName cmNamespace configData : String)
    (get : GetConfigMapResult) : List WriteCall :=
  match get with
  | .getError => []
  | .notFound => [.create ⟨cmName, cmNamespace, [(connectorConfigFileName, configData)]⟩]
  | .found cm =>
    if (assocLookup cm.data connectorConfigFileName).getD "" == configData then []
    else [.update { cm with
      data := assocSet cm.data connectorConfigFileName configData }]

/-- Claim C6: when the stored artifact's payload is byte-equal to the
freshly serialized NetworkConf, `updateConfigMapIfNeeded` issues zero
write calls — neither create nor update. -/
theorem updateConfigMapIfNeeded_skip_when_equal (cmName cmNamespace configData : String)
    (cm : ConfigMapObj)
    (h : assocLookup cm.data connectorConfigFileName = some configData) :
    updateConfigMapIfNeeded cmName cmNamespace configData (.found cm) = [] := by
  show (if (assocLookup cm.data connectorConfigFileName).getD "" == configData then []
      else _) = ([] : List WriteCall)
  rw [h]
  rw [if_pos (by simp)]

/-- Witness for claim C6 at a concrete ConfigMap. -/
theorem updateConfigMapIfNeeded_skip_when_equal_witness :
    updateConfigMapIfNeeded "connector-config" "fabedge" "peers-yaml-payload"
      (.found ⟨"connector-config", "fabedge",
        [(connectorConfigFileName, "peers-yaml-payload")]⟩) = [] :=
  updateConfigMapIfNeeded_skip_when_equal "connector-config" "fabedge" "peers-yaml-payload"
    ⟨"connector-config", "fabedge", [(connectorConfigFileName, "peers-yaml-payload")]⟩
    (by decide)

/- ===================================================================
   Part 7: the agent argument map.
   =================================================================== -/

/-- Modelled from the spec: the `types.AgentArgumentMap` is a map from
flag name to value (its implementation is not among the excerpted
sources; the behaviour is fixed by §6 of the specification and by the
package's tests). -/
abbrev AgentArgumentMap : Type := List (String × String)

/-- Modelled from the spec: `Get` returns the stored value or the
empty string, as a Go map read does. -/
def argGet (m : AgentArgumentMap) (k : String) : String := (assocLookup m k).getD ""

/-- Modelled from the spec: `IsIPAMEnabled` is true only on the
literal value `"true"`. -/
def IsIPAMEnabled (m : AgentArgumentMap) : Bool := argGet m "enable-ipam" == "true"

/-- Modelled from the spec: `IsProxyEnabled` is true only on the
literal value `"true"`. -/
def IsProxyEnabled (m : AgentArgumentMap) : Bool := argGet m "enable-proxy" == "true"

/-- Modelled from the spec: `ArgumentArray` renders every key except
`log-level` as `--<key>=<value>` in ascending byte-wise key order, and
appends `--v=<level>` last when `log-level` is present. -/
def ArgumentArray (m : AgentArgumentMap) : List String :=
  let keys := (m.map Prod.fst).filter fun k => !(k == "log-level")
  let args := (keys.insertionSort goStrLe).map fun k => "--" ++ k ++ "=" ++ argGet m k
  match assocLookup m "log-level" with
  | some v => args ++ ["--v=" ++ v]
  | none => args

/-- The argument map of the specification's concrete scenario 1. -/
def exampleArgMap : AgentArgumentMap :=
  [("enable-proxy", "false"), ("enable-ipam", "true"), ("log-level", "3")]

/-- Claim C8: `ArgumentArray` renders `log-level` as `--v=<level>`
placed last, and every other key as `--<key>=<value>` in ascending
byte-wise order of the flag names; on the map
{enable-proxy=false, enable-ipam=true, log-level=3} the output is
exactly ["--enable-ipam=true", "--enable-proxy=false", "--v=3"]. -/
theorem argumentArray_spec :
    ArgumentArray exampleArgMap =
      ["--enable-ipam=true", "--enable-proxy=false", "--v=3"] ∧
    (∀ m : AgentArgumentMap,
      ArgumentArray m =
        ((((m.map Prod.fst).filter fun k => !(k == "log-level")).insertionSort goStrLe).map
          fun k => "--" ++ k ++ "=" ++ argGet m k) ++
        ((assocLookup m "log-level").elim [] fun v => ["--v=" ++ v])) ∧
    (∀ m : AgentArgumentMap,
      List.Sorted goStrLe
        (((m.map Prod.fst).filter fun k => !(k == "log-level")).insertionSort goStrLe)) := by
  refine ⟨by decide, fun m => ?_, fun m => List.sorted_insertionSort goStrLe _⟩
  show (match assocLookup m "log-level" with
    | some v => (((m.map Prod.fst).filter fun k => !(k == "log-level")).insertionSort
        goStrLe).map (fun k => "--" ++ k ++ "=" ++ argGet m k) ++ ["--v=" ++ v]
    | none => (((m.map Prod.fst).filter fun k => !(k == "log-level")).insertionSort
        goStrLe).map fun k => "--" ++ k ++ "=" ++ argGet m k) = _
  cases assocLookup m "log-level" with
  | none => simp
  | some v => simp

/-- Claim C9: `IsIPAMEnabled` and `IsProxyEnabled` are true exactly
when the key is present with the literal value `"true"`; `"TRUE"` and
the empty string yield false. -/
theorem truthyFlags_spec :
    (∀ m : AgentArgumentMap,
      IsIPAMEnabled m = true ↔ assocLookup m "enable-ipam" = some "true") ∧
    (∀ m : AgentArgumentMap,
      IsProxyEnabled m = true ↔ assocLookup m "enable-proxy" = some "true") ∧
    IsIPAMEnabled [("enable-ipam", "TRUE")] = false ∧
    IsIPAMEnabled [("enable-ipam", "")] = false ∧
    IsProxyEnabled [("enable-proxy", "TRUE")] = false ∧
    IsProxyEnabled [("enable-proxy", "")] = false := by
  have key : ∀ (m : AgentArgumentMap) (k : String),
      (argGet m k == "true") = true ↔ assocLookup m k = some "true" := by
    intro m k
    unfold argGet
    cases h : assocLookup m k with
    | none => simp
    | some v => simp
  exact ⟨fun m => key m "enable-ipam", fun m => key m "enable-proxy",
    by decide, by decide, by decide, by decide⟩
